import Mathlib

/-!
Verification of `ports.c`: a utility that parses kernel socket tables,
joins socket inodes to owning processes, and prints a filtered, sorted
report.  C strings are modelled as lists of byte values (`List Nat`,
each element < 256 in practice); machine-integer casts are explicit
`%` operations where they matter.
-/

namespace Ports

/-- Byte-list view of a string literal (ASCII). -/
def bytes (s : String) : List Nat := s.toList.map Char.toNat

/-- One owner record: `owner_info_t { pid_t pid; char name[256]; }`. -/
structure OwnerInfo where
  pid : Int
  name : List Nat
deriving DecidableEq, Repr

/-- One socket record: `sock_entry_t` from ports.c. -/
structure SockEntry where
  proto : List Nat
  local_hex : List Nat
  local_ip : List Nat
  port : Nat
  inode : Nat
  owners : List OwnerInfo
deriving DecidableEq, Repr

/-- `add_owner`: prepends a new owner node onto the entry's owner list.
`strncpy(n->name, name, sizeof(n->name)-1)` truncates the name to 255
bytes. -/
def add_owner (e : SockEntry) (pid : Int) (name : List Nat) : SockEntry :=
  { e with owners := ⟨pid, name.take 255⟩ :: e.owners }

/-- One match event produced by the `/proc` scan in `populate_owners`:
a process `pid` was observed holding a descriptor whose link target is
`socket:[inode]`, and the display name resolved for it at that moment. -/
structure ScanEvent where
  pid : Int
  inode : Nat
  name : List Nat
deriving DecidableEq, Repr

/-- Inner loop of `populate_owners` for one scan event: for every entry,
`if (!e->inode || e->inode != inode) continue;` else `add_owner`. -/
def apply_event (entries : List SockEntry) (ev : ScanEvent) : List SockEntry :=
  entries.map (fun e =>
    if e.inode ≠ 0 ∧ e.inode = ev.inode then add_owner e ev.pid ev.name else e)

/-- `populate_owners`: the `/proc` scan visits match events in discovery
order, updating the entry list after each one. -/
def populate_owners (entries : List SockEntry) (events : List ScanEvent) :
    List SockEntry :=
  events.foldl apply_event entries

/-- The owner built from one scan event (name truncated as by `strncpy`). -/
def owner_of_event (ev : ScanEvent) : OwnerInfo := ⟨ev.pid, ev.name.take 255⟩

/-- Whether a scan event joins onto a given entry. -/
def event_hits (e : SockEntry) (ev : ScanEvent) : Bool :=
  decide (e.inode ≠ 0 ∧ e.inode = ev.inode)

lemma apply_event_eq (entries : List SockEntry) (ev : ScanEvent) :
    apply_event entries ev = entries.map (fun e =>
      if event_hits e ev then add_owner e ev.pid ev.name else e) := by
  unfold apply_event event_hits
  refine List.map_congr_left (fun e _ => ?_)
  by_cases h : e.inode ≠ 0 ∧ e.inode = ev.inode <;> simp [h]

lemma add_owner_inode (e : SockEntry) (pid : Int) (nm : List Nat) :
    (add_owner e pid nm).inode = e.inode := rfl

/-- Full characterisation of the join: each entry receives exactly the
matching events' owners, newest first (prepend order), in front of its
previous owner list. -/
lemma populate_owners_eq (events : List ScanEvent) (entries : List SockEntry) :
    populate_owners entries events = entries.map (fun e =>
      { e with owners :=
          ((events.filter (fun ev => event_hits e ev)).map owner_of_event).reverse
            ++ e.owners }) := by
  induction events generalizing entries with
  | nil =>
    simp only [populate_owners, List.foldl_nil, List.filter_nil, List.map_nil,
      List.reverse_nil, List.nil_append]
    conv_lhs => rw [← List.map_id entries]
    rfl
  | cons ev evs ih =>
    have step : populate_owners entries (ev :: evs)
        = populate_owners (apply_event entries ev) evs := rfl
    rw [step, ih, apply_event_eq, List.map_map]
    refine List.map_congr_left (fun e _ => ?_)
    simp only [Function.comp]
    by_cases h : event_hits e ev
    · have hinode : (add_owner e ev.pid ev.name).inode = e.inode := rfl
      have hfilter : ∀ l : List ScanEvent,
          l.filter (fun x => event_hits (add_owner e ev.pid ev.name) x)
            = l.filter (fun x => event_hits e x) := by
        intro l
        refine List.filter_congr (fun x _ => ?_)
        simp [event_hits, hinode]
      simp only [h, if_pos, List.filter_cons, h, ite_true]
      simp only [hfilter, List.map_cons, List.reverse_cons, List.append_assoc]
      rfl
    · simp [List.filter_cons, h]

/-- claim C1: a record with `socket_id == 0` never receives owners from
the join: if every inode-0 entry starts with an empty owner list, then
after `populate_owners` runs on any record list and any scan events,
every inode-0 entry still has an empty owner list. -/
theorem claim1_inode_zero_gets_no_owners
    (entries : List SockEntry) (events : List ScanEvent)
    (h0 : ∀ e ∈ entries, e.inode = 0 → e.owners = []) :
    ∀ e ∈ populate_owners entries events, e.inode = 0 → e.owners = [] := by
  intro e he hz
  rw [populate_owners_eq] at he
  rcases List.mem_map.1 he with ⟨a, ha, rfl⟩
  simp only at hz
  have hfilt : (events.filter (fun ev => event_hits a ev)) = [] := by
    refine List.filter_eq_nil_iff.2 (fun ev _ => ?_)
    simp [event_hits, hz]
  simp [hfilt, h0 a ha hz]

/-- A record whose inode is the unknown sentinel 0. -/
def entry_inode0 : SockEntry :=
  ⟨bytes "tcp", bytes "0100007F", bytes "127.0.0.1", 22, 0, []⟩

/-- Witness for C1 at a concrete input: one record with inode 0 and a
scan event that also carries inode 0; the record keeps an empty owner
list. -/
theorem claim1_inode_zero_gets_no_owners_witness : entry_inode0.owners = [] :=
  claim1_inode_zero_gets_no_owners [entry_inode0] [⟨100, 0, bytes "sshd"⟩]
    (by decide) entry_inode0 (by decide) (by decide)

/-- claim C4 counterexample: `add_owner` prepends, so with an entry of
inode 5 and two scan events discovered in order pid 100 then pid 200,
the final owner list read front to back is `[200, 100]` — not the
discovery order `[100, 200]` the claim asserts. -/
theorem claim4_discovery_order_cex :
    (populate_owners
        [⟨bytes "tcp", bytes "0100007F", bytes "127.0.0.1", 22, 5, []⟩]
        [⟨100, 5, [97]⟩, ⟨200, 5, [98]⟩]).map
      (fun e => e.owners.map (fun o => o.pid)) = [[200, 100]]
    ∧ ([[200, 100]] : List (List Int)) ≠ [[100, 200]] := by
  constructor
  · rfl
  · decide

/-- claim C4 (amended): for every record with nonzero `socket_id`, the
join attaches exactly the owners of the matching scan events, but in
REVERSE discovery order (each owner is prepended), in front of any
owners the record already had. -/
theorem claim4_owners_reverse_discovery_order
    (entries : List SockEntry) (events : List ScanEvent) :
    populate_owners entries events = entries.map (fun e =>
      { e with owners :=
          ((events.filter (fun ev => event_hits e ev)).map owner_of_event).reverse
            ++ e.owners }) :=
  populate_owners_eq events entries

/-- Whitespace class of the `strtok_r(p, " \t\n", &save)` separator set. -/
def is_ws (c : Nat) : Bool := c = 32 || c = 9 || c = 10

/-- Tokeniser worker: splits on runs of separators, never yields empty
tokens (the behaviour of repeated `strtok_r`). -/
def tok_go : List Nat → List Nat → List (List Nat)
  | [], cur => if cur = [] then [] else [cur.reverse]
  | c :: cs, cur =>
    if is_ws c then
      if cur = [] then tok_go cs [] else cur.reverse :: tok_go cs []
    else tok_go cs (c :: cur)

/-- The tokenisation loop in `parse_proc_net`: at most 32 tokens are
collected (`tokc < 32`); the rest of the line is discarded. -/
def tokenize (line : List Nat) : List (List Nat) := (tok_go line []).take 32

/-- Hex digit value, as accepted by `strtoul(..., 16)`. -/
def hex_digit_val (c : Nat) : Option Nat :=
  if 48 ≤ c ∧ c ≤ 57 then some (c - 48)
  else if 97 ≤ c ∧ c ≤ 102 then some (c - 87)
  else if 65 ≤ c ∧ c ≤ 70 then some (c - 55)
  else none

/-- Decimal digit value, as accepted by `strtoul(..., 10)`. -/
def dec_digit_val (c : Nat) : Option Nat :=
  if 48 ≤ c ∧ c ≤ 57 then some (c - 48) else none

/-- Digit-accumulation loop shared by the `strtoul` models: consumes the
maximal leading run of digits, ignoring the rest. -/
def radix_go (dv : Nat → Option Nat) (base : Nat) : List Nat → Nat → Nat
  | [], acc => acc
  | c :: cs, acc =>
    match dv c with
    | some d => radix_go dv base cs (acc * base + d)
    | none => acc

/-- `strtoul(s, NULL, 16)` on an LP64 host, for the digit-string inputs
this program feeds it (no leading whitespace/sign/0x modelled): value of
the maximal hex-digit run, clamped to `ULONG_MAX` on overflow. -/
def strtoul_hex (s : List Nat) : Nat := min (radix_go hex_digit_val 16 s 0) (2 ^ 64 - 1)

/-- `strtoul(s, NULL, 10)` on an LP64 host, same modelling scope. -/
def strtoul_dec (s : List Nat) : Nat := min (radix_go dec_digit_val 10 s 0) (2 ^ 64 - 1)

/-- `hex_to_port`: `(unsigned)strtoul(hex, NULL, 16)` — the cast to a
32-bit unsigned wraps modulo `2^32`. -/
def hex_to_port (hex : List Nat) : Nat := strtoul_hex hex % 2 ^ 32

/-- Decimal rendering worker, fuel-bounded so that it reduces in the
kernel; any fuel of at least the digit count gives the full rendering. -/
def natRepr_go (fuel n : Nat) : List Nat :=
  match fuel with
  | 0 => []
  | f + 1 => if n < 10 then [48 + n] else natRepr_go f (n / 10) ++ [48 + n % 10]

/-- Decimal rendering of an unsigned value, as `printf("%u", n)`. -/
def natRepr (n : Nat) : List Nat := natRepr_go (n + 1) n

/-- Lower-case hex digit character, as used by `printf("%x")`. -/
def hex_char (n : Nat) : Nat := if n < 10 then 48 + n else 87 + n

/-- Hex rendering worker, fuel-bounded like `natRepr_go`. -/
def natHex_go (fuel n : Nat) : List Nat :=
  match fuel with
  | 0 => []
  | f + 1 => if n < 16 then [hex_char n] else natHex_go f (n / 16) ++ [hex_char (n % 16)]

/-- Lower-case hex rendering of an unsigned value (`printf("%x", n)`). -/
def natHex (n : Nat) : List Nat := natHex_go (n + 1) n

/-- Left-padding of a short wide-family hex string with `'0'` to 32
characters, as in `hex_to_ipstr`'s IPv6 branch. -/
def v6_pad (hex : List Nat) : List Nat :=
  if hex.length < 32 then List.replicate (32 - hex.length) 48 ++ hex else hex

/-- The 16 bytes scanned by `sscanf(&hex[i*2], "%2x", &b)` over the
padded string (a failed conversion leaves the zero-initialised byte). -/
def v6_bytes (hex : List Nat) : List Nat :=
  (List.range 16).map (fun i => radix_go hex_digit_val 16 (((v6_pad hex).drop (2 * i)).take 2) 0)

/-- Stands in for libc `inet_ntop(AF_INET6, ...)`, which is not part of
this repository: renders 16 bytes as eight colon-separated hex groups
(full form, no zero-compression).  No claim depends on its output. -/
def inet_ntop6 (bs : List Nat) : List Nat :=
  List.intercalate [58]
    ((List.range 8).map (fun i => natHex (bs.getD (2 * i) 0 * 256 + bs.getD (2 * i + 1) 0)))

/-- `hex_to_ipstr`: empty input yields `"-"`; the narrow (IPv4) branch
reads the value as little-endian-packed and prints the four octets via
masks and shifts; the wide branch decodes 16 bytes and formats them. -/
def hex_to_ipstr (hex : List Nat) (is_v6 : Bool) : List Nat :=
  if hex = [] then bytes "-"
  else if !is_v6 then
    let val := strtoul_hex hex
    natRepr (val &&& 255) ++ [46] ++ natRepr ((val >>> 8) &&& 255) ++ [46]
      ++ natRepr ((val >>> 16) &&& 255) ++ [46] ++ natRepr ((val >>> 24) &&& 255)
  else inet_ntop6 (v6_bytes hex)

/-- `strchr(local, ':')`: split a byte string at its first colon. -/
def split_colon : List Nat → Option (List Nat × List Nat)
  | [] => none
  | c :: cs =>
    if c = 58 then some ([], cs)
    else
      match split_colon cs with
      | none => none
      | some (a, b) => some (c :: a, b)

/-- Body of the `parse_proc_net` loop for one data line.  Buffer copies
keep their `strncpy` truncations: `local[128]`, `st[16]`,
`e->proto[8]`, `e->local_hex[64]`.  The remote-address token is copied
but never used.  `tokens[9]`, when present, is the decimal inode. -/
def parse_line (proto : List Nat) (only_listen : Bool) (line : List Nat) :
    Option SockEntry :=
  let toks := tokenize line
  if toks.length < 4 then none
  else
    let lcl := (toks.getD 1 []).take 127
    let st := (toks.getD 3 []).take 15
    let inode := if 9 < toks.length then strtoul_dec (toks.getD 9 []) else 0
    if only_listen ∧ st ≠ bytes "0A" then none
    else
      match split_colon lcl with
      | none => none
      | some (addr, porthex) =>
        some { proto := proto.take 7
             , local_hex := addr.take 63
             , local_ip := hex_to_ipstr (addr.take 63) (proto.contains 54)
             , port := hex_to_port porthex
             , inode := inode
             , owners := [] }

/-- `parse_proc_net` on one table, given as its list of lines: the first
line (header) is skipped unconditionally — an empty file yields nothing;
each surviving data line's record is pushed onto the front of the list. -/
def parse_proc_net (proto : List Nat) (only_listen : Bool)
    (content : List (List Nat)) : List SockEntry :=
  match content with
  | [] => []
  | _hdr :: rest =>
    rest.foldl (fun head line =>
      match parse_line proto only_listen line with
      | some e => e :: head
      | none => head) []

/-- Sample table lines used by the concrete parser claims. -/
def sample_header : List Nat :=
  bytes "  sl  local_address rem_address   st tx_queue rx_queue tr tm->when retrnsmt   uid  timeout inode"

/-- A well-formed data line in listening state `0A` (port 0x16 = 22). -/
def sample_line_listen : List Nat :=
  bytes "0: 0100007F:0016 00000000:0000 0A 00000000:00000000 00:00000000 00000000 0 0 12345"

/-- A well-formed data line in state `06` (port 0x50 = 80). -/
def sample_line_close : List Nat :=
  bytes "1: 0100007F:0050 00000000:0000 06 00000000:00000000 00:00000000 00000000 0 0 99"

/-- A malformed data line with only two tokens. -/
def sample_line_short : List Nat := bytes "1: 2"

/-- Record parsed from `sample_line_listen` under protocol `tcp`. -/
def entry_listen : SockEntry :=
  { proto := bytes "tcp", local_hex := bytes "0100007F"
  , local_ip := bytes "127.0.0.1", port := 22, inode := 12345, owners := [] }

/-- Record parsed from `sample_line_close` under protocol `tcp`. -/
def entry_close : SockEntry :=
  { proto := bytes "tcp", local_hex := bytes "0100007F"
  , local_ip := bytes "127.0.0.1", port := 80, inode := 99, owners := [] }

/-- claim C5: with `only_listening` set, a data line survives exactly
when its state token is `"0A"` (and then parses as without the filter);
concretely, a table with one `0A` line and one `06` line yields exactly
the `0A` record when filtering and both records when not. -/
theorem claim5_listening_state_filter :
    (∀ (proto line : List Nat),
        parse_line proto true line =
          if ((tokenize line).getD 3 []).take 15 = bytes "0A"
          then parse_line proto false line else none)
    ∧ parse_proc_net (bytes "tcp") true
        [sample_header, sample_line_listen, sample_line_close] = [entry_listen]
    ∧ parse_proc_net (bytes "tcp") false
        [sample_header, sample_line_listen, sample_line_close]
        = [entry_close, entry_listen] := by
  refine ⟨fun proto line => ?_, by decide, by decide⟩
  unfold parse_line
  by_cases h4 : (tokenize line).length < 4
  · simp [h4]
  · by_cases hst : ((tokenize line).getD 3 []).take 15 = bytes "0A"
    · simp [h4, hst]
    · simp [h4, hst]

/-- claim C8: a data line with fewer than 4 tokens is skipped silently
(the parse yields nothing for it and cannot fail); a table with a
header, one well-formed line and one 2-token line yields exactly one
record. -/
theorem claim8_short_lines_skipped :
    (∀ (proto line : List Nat) (ol : Bool),
        (tokenize line).length < 4 → parse_line proto ol line = none)
    ∧ parse_proc_net (bytes "tcp") true
        [sample_header, sample_line_listen, sample_line_short] = [entry_listen] := by
  refine ⟨fun proto line ol h => ?_, by decide⟩
  unfold parse_line
  simp [h]

/-- Witness for C8's universally quantified part at the concrete short
line. -/
theorem claim8_short_lines_skipped_witness :
    parse_line (bytes "tcp") true sample_line_short = none :=
  claim8_short_lines_skipped.1 (bytes "tcp") sample_line_short true (by decide)

/-- claim C7: the narrow (IPv4) decoder reads the hex string as a
32-bit little-endian-packed value and prints octets low byte first;
concretely `"0100007F"` decodes to `"127.0.0.1"`. -/
theorem claim7_ipv4_little_endian (hex : List Nat) (h : hex ≠ []) :
    hex_to_ipstr hex false =
      natRepr (strtoul_hex hex % 256) ++ [46]
        ++ natRepr (strtoul_hex hex / 2 ^ 8 % 256) ++ [46]
        ++ natRepr (strtoul_hex hex / 2 ^ 16 % 256) ++ [46]
        ++ natRepr (strtoul_hex hex / 2 ^ 24 % 256)
    ∧ hex_to_ipstr (bytes "0100007F") false = bytes "127.0.0.1" := by
  constructor
  · have hmask : ∀ n : Nat, n &&& 255 = n % 256 := by
      intro n
      have := Nat.and_pow_two_sub_one_eq_mod n 8
      norm_num at this
      exact this
    have hshift : ∀ n k : Nat, n >>> k = n / 2 ^ k := fun n k =>
      Nat.shiftRight_eq_div_pow n k
    simp only [hex_to_ipstr, h, if_neg, Bool.not_false, if_true, hmask, hshift]
    simp [h]
  · decide

/-- Witness for C7 at the concrete loopback address string. -/
theorem claim7_ipv4_little_endian_witness :
    hex_to_ipstr (bytes "0100007F") false =
      natRepr (strtoul_hex (bytes "0100007F") % 256) ++ [46]
        ++ natRepr (strtoul_hex (bytes "0100007F") / 2 ^ 8 % 256) ++ [46]
        ++ natRepr (strtoul_hex (bytes "0100007F") / 2 ^ 16 % 256) ++ [46]
        ++ natRepr (strtoul_hex (bytes "0100007F") / 2 ^ 24 % 256)
    ∧ hex_to_ipstr (bytes "0100007F") false = bytes "127.0.0.1" :=
  claim7_ipv4_little_endian (bytes "0100007F") (by decide)

/-- Bytes placed in the buffer by one `fgets(buf, 256, f)` call: at most
255 bytes, stopping after the first newline. -/
def take_line_go : List Nat → List Nat
  | [] => []
  | c :: cs => if c = 10 then [10] else c :: take_line_go cs

/-- `fgets` read result on a file whose remaining content is `content`
(the call returns NULL exactly when `content = []`). -/
def fgets_read (content : List Nat) : List Nat := take_line_go (content.take 255)

/-- Value of a C buffer as a string: bytes up to the first NUL. -/
def cstr (buf : List Nat) : List Nat := buf.takeWhile (fun c => c != 0)

lemma cstr_getD_ne_zero (b : List Nat) : ∀ i, i < (cstr b).length → b.getD i 1 ≠ 0 := by
  induction b with
  | nil => intro i h; simp [cstr] at h
  | cons c cs ih =>
    intro i h
    by_cases hc : c = 0
    · simp [cstr, hc, List.takeWhile_cons] at h
    · rw [cstr, List.takeWhile_cons_of_pos (by simpa using hc)] at h
      cases i with
      | zero => simpa [List.getD] using hc
      | succ j =>
        have hj : j < (cstr cs).length := by
          simpa [cstr] using Nat.lt_of_succ_lt_succ h
        simpa [List.getD_cons_succ] using ih j hj

/-- One step of the cmdline NUL-replacement loop in `populate_owners`:
`for (i = 0; i < strlen(comm); ++i) if (comm[i] == 0) comm[i] = ' ';`
with `strlen` re-evaluated against the current buffer.  Fuel bounds the
iteration count; `buf.length` fuel always reaches the loop's own exit
condition. -/
def replace_nuls_go (buf : List Nat) (i fuel : Nat) : List Nat :=
  match fuel with
  | 0 => buf
  | f + 1 =>
    if i < (cstr buf).length then
      replace_nuls_go (if buf.getD i 1 = 0 then buf.set i 32 else buf) (i + 1) f
    else buf

/-- The cmdline NUL-replacement loop. -/
def replace_nuls (buf : List Nat) : List Nat := replace_nuls_go buf 0 buf.length

/-- Owner-name resolution in `populate_owners`, as a function of the
contents of the process's `comm` and `cmdline` records (`none` when the
open fails).  The buffer starts as `"?"`; a successful `comm` read is
trimmed of one trailing newline; on `comm` open failure the `cmdline`
bytes are read and run through the NUL-replacement loop; the stored
name is the buffer's C-string value. -/
def resolve_name (comm cmdline : Option (List Nat)) : List Nat :=
  match comm with
  | some content =>
    if content = [] then bytes "?"
    else
      let v := cstr (fgets_read content)
      if v ≠ [] ∧ v.getLast! = 10 then v.dropLast else v
  | none =>
    match cmdline with
    | some content =>
      if content = [] then bytes "?"
      else cstr (replace_nuls (fgets_read content))
    | none => bytes "?"

/-- claim C3: the cmdline fallback was meant to replace the argument
vector's internal NUL separators with spaces, but the replacement loop
compares `i` against `strlen(comm)`, which stops at the first NUL, so
no byte it inspects is ever NUL and the name is truncated at the first
separator.  At cmdline bytes `"a\0b\0"` the resolved name is `"a"`,
not `"a b"`; the loop is provably the identity on every buffer. -/
theorem claim3_cmdline_nul_replacement_dead :
    resolve_name none (some [97, 0, 98, 0]) = [97]
    ∧ resolve_name none (some [97, 0, 98, 0]) ≠ [97, 32, 98]
    ∧ ∀ buf : List Nat, replace_nuls buf = buf := by
  refine ⟨by decide, by decide, fun buf => ?_⟩
  have key : ∀ (fuel : Nat) (b : List Nat) (i : Nat), replace_nuls_go b i fuel = b := by
    intro fuel
    induction fuel with
    | zero => intro b i; rfl
    | succ f ih =>
      intro b i
      unfold replace_nuls_go
      by_cases hi : i < (cstr b).length
      · have hne : b.getD i 1 ≠ 0 := cstr_getD_ne_zero b i hi
        rw [List.getD] at hne
        simp only [List.get?_eq_getElem?] at hne
        simp [hi, ih, hne]
      · simp [hi]
  exact key buf.length buf 0

/-- The sort field selected by `-s` (`g_sort_field`). -/
inductive SortField where
  | port
  | pid
  | proto
deriving DecidableEq, Repr

/-- Sign of libc `strcmp` on two byte strings (the program only ever
uses the sign and zero-ness of the result). -/
def strcmp : List Nat → List Nat → Int
  | [], [] => 0
  | [], _ :: _ => -1
  | _ :: _, [] => 1
  | a :: as, b :: bs =>
    if a < b then -1 else if b < a then 1 else strcmp as bs

/-- `entry_primary_pid`: 0 when the entry has no owners, else the
running minimum of the owner pids (the loop starts from the first
owner's pid and scans the whole list). -/
def entry_primary_pid (e : SockEntry) : Int :=
  match e.owners with
  | [] => 0
  | o :: _ => e.owners.foldl (fun m o2 => if o2.pid < m then o2.pid else m) o.pid

/-- `cmp_entries`, parameterised by the globals it reads
(`g_sort_field`, `g_sort_reverse`). -/
def cmp_entries (field : SortField) (rev : Bool) (ea eb : SockEntry) : Int :=
  let r : Int :=
    match field with
    | .port =>
      if ea.port < eb.port then -1
      else if eb.port < ea.port then 1
      else strcmp ea.proto eb.proto
    | .pid =>
      let pa := entry_primary_pid ea
      let pb := entry_primary_pid eb
      if pa < pb then -1 else if pb < pa then 1 else strcmp ea.proto eb.proto
    | .proto =>
      let r0 := strcmp ea.proto eb.proto
      if r0 = 0 then
        if ea.port < eb.port then -1 else if eb.port < ea.port then 1 else 0
      else r0
  if rev then -r else r

/-- Three-way comparison from a strict order, spec side. -/
def ord_of_lt {α : Type} [LT α] [h : ∀ x y : α, Decidable (x < y)] (a b : α) : Ordering :=
  if a < b then .lt else if b < a then .gt else .eq

/-- An `Ordering` as a comparator sign. -/
def ord2int : Ordering → Int
  | .lt => -1
  | .eq => 0
  | .gt => 1

/-- Spec-side pid key: the minimum pid among the record's owners, with
"no owners" treated as pid 0. -/
def min_pid (e : SockEntry) : Int := ((e.owners.map OwnerInfo.pid).min?).getD 0

/-- The comparison chain exactly as the specification words it (§4.5):
`port` numeric with protocol tie-break, `pid` by minimum owner pid with
protocol tie-break, `proto` lexicographic with port tie-break, and
`reverse` negating the entire result. -/
def cmp_spec (field : SortField) (rev : Bool) (ea eb : SockEntry) : Int :=
  let o : Ordering :=
    match field with
    | .port => (ord_of_lt ea.port eb.port).then (ord_of_lt ea.proto eb.proto)
    | .pid => (ord_of_lt (min_pid ea) (min_pid eb)).then (ord_of_lt ea.proto eb.proto)
    | .proto => (ord_of_lt ea.proto eb.proto).then (ord_of_lt ea.port eb.port)
  if rev then -ord2int o else ord2int o

lemma strcmp_eq_lex (a : List Nat) : ∀ b : List Nat, strcmp a b = ord2int (ord_of_lt a b) := by
  induction a with
  | nil =>
    intro b
    cases b with
    | nil =>
      have h1 : ¬(([] : List Nat) < ([] : List Nat)) := by intro h; cases h
      simp [strcmp, ord_of_lt, h1, ord2int]
    | cons c cs =>
      have h1 : ([] : List Nat) < (c :: cs) := List.Lex.nil
      simp [strcmp, ord_of_lt, h1, ord2int]
  | cons a as ih =>
    intro b
    cases b with
    | nil =>
      have h1 : ¬((a :: as) < ([] : List Nat)) := by intro h; cases h
      have h2 : ([] : List Nat) < (a :: as) := List.Lex.nil
      simp [strcmp, ord_of_lt, h1, h2, ord2int]
    | cons c cs =>
      by_cases h1 : a < c
      · have hl : (a :: as) < (c :: cs) := List.Lex.rel h1
        simp [strcmp, ord_of_lt, h1, hl, ord2int]
      · by_cases h2 : c < a
        · have hnl : ¬((a :: as) < (c :: cs)) := by
            intro h
            cases h with
            | cons h' => exact absurd h2 (lt_irrefl _)
            | rel hh => exact h1 hh
          have hl : (c :: cs) < (a :: as) := List.Lex.rel h2
          simp [strcmp, ord_of_lt, h1, h2, hnl, hl, ord2int]
        · have hac : a = c := le_antisymm (not_lt.1 h2) (not_lt.1 h1)
          subst hac
          have hiff1 : ((a :: as) < (a :: cs)) ↔ as < cs := by
            constructor
            · intro h
              cases h with
              | cons h' => exact h'
              | rel hh => exact absurd hh (lt_irrefl a)
            · exact fun h => List.Lex.cons h
          have hiff2 : ((a :: cs) < (a :: as)) ↔ cs < as := by
            constructor
            · intro h
              cases h with
              | cons h' => exact h'
              | rel hh => exact absurd hh (lt_irrefl a)
            · exact fun h => List.Lex.cons h
          have hstep : strcmp (a :: as) (a :: cs) = strcmp as cs := by
            simp [strcmp]
          rw [hstep, ih cs]
          simp [ord_of_lt, hiff1, hiff2]

lemma foldl_min_pid (l : List OwnerInfo) : ∀ init : Int,
    l.foldl (fun m o2 => if o2.pid < m then o2.pid else m) init
      = (l.map OwnerInfo.pid).foldl min init := by
  induction l with
  | nil => intro init; rfl
  | cons o os ih =>
    intro init
    simp only [List.foldl_cons, List.map_cons]
    rw [ih]
    congr 1
    rw [min_def]
    split <;> split <;> omega

lemma entry_primary_pid_eq (e : SockEntry) : entry_primary_pid e = min_pid e := by
  obtain ⟨p, lh, li, pt, ind, ows⟩ := e
  cases ows with
  | nil => rfl
  | cons o os =>
    show (o :: os).foldl _ o.pid = _
    rw [foldl_min_pid]
    simp [min_pid, List.min?, min_self]

lemma ord2int_then_eq {α : Type} [LinearOrder α] (a b : α) (t : Int) (tOrd : Ordering)
    (ht : t = ord2int tOrd) :
    (if a < b then (-1 : Int) else if b < a then 1 else t)
      = ord2int ((ord_of_lt a b).then tOrd) := by
  rcases lt_trichotomy a b with h | h | h
  · simp [ord_of_lt, h, Ordering.then, ord2int]
  · subst h
    simp [ord_of_lt, lt_irrefl, Ordering.then, ht]
  · simp [ord_of_lt, h, asymm h, Ordering.then, ord2int]

lemma three_way_eq {α : Type} [LinearOrder α] (a b : α) :
    (if a < b then (-1 : Int) else if b < a then 1 else 0) = ord2int (ord_of_lt a b) := by
  rcases lt_trichotomy a b with h | h | h
  · simp [ord_of_lt, h, ord2int]
  · subst h
    simp [ord_of_lt, lt_irrefl, ord2int]
  · simp [ord_of_lt, h, asymm h, ord2int]

lemma proto_case_eq (a b : List Nat) (pa pb : Nat) :
    (if strcmp a b = 0 then
        (if pa < pb then (-1 : Int) else if pb < pa then 1 else 0)
      else strcmp a b)
      = ord2int ((ord_of_lt a b).then (ord_of_lt pa pb)) := by
  rw [strcmp_eq_lex]
  cases h : ord_of_lt a b with
  | lt => simp [ord2int, Ordering.then]
  | eq => simp [ord2int, Ordering.then, three_way_eq]
  | gt => simp [ord2int, Ordering.then]

/-- claim C2: the comparator implements the specified order for every
sort key — `port` ascending with protocol tie-break, `pid` by the
minimum owner pid with 0 for ownerless records and protocol tie-break,
`proto` lexicographic with port tie-break — and `reverse` negates the
whole chain, tie-breaks included. -/
theorem claim2_comparator_matches_spec (field : SortField) (rev : Bool)
    (ea eb : SockEntry) :
    cmp_entries field rev ea eb = cmp_spec field rev ea eb := by
  cases field with
  | port =>
    cases rev <;>
      simp only [cmp_entries, cmp_spec, Bool.false_eq_true, if_false, if_true,
        ord2int_then_eq ea.port eb.port _ _ (strcmp_eq_lex ea.proto eb.proto),
        neg_inj]
  | pid =>
    cases rev <;>
      simp only [cmp_entries, cmp_spec, Bool.false_eq_true, if_false, if_true,
        entry_primary_pid_eq,
        ord2int_then_eq (min_pid ea) (min_pid eb) _ _ (strcmp_eq_lex ea.proto eb.proto),
        neg_inj]
  | proto =>
    cases rev <;>
      simp only [cmp_entries, cmp_spec, Bool.false_eq_true, if_false, if_true,
        proto_case_eq, neg_inj]

/-- `tolower` on a byte in the C locale: only `'A'..'Z'` change. -/
def tolower (c : Nat) : Nat := if 65 ≤ c ∧ c ≤ 90 then c + 32 else c

/-- Inner loop of `portable_strcasestr` at one haystack position: the
needle matches here iff every needle byte is present and equal under
`tolower` before the haystack ends. -/
def ci_match_front : List Nat → List Nat → Bool
  | [], _ => true
  | _ :: _, [] => false
  | a :: as, b :: bs => (tolower b == tolower a) && ci_match_front as bs

/-- Outer loop of `portable_strcasestr`: try every haystack position. -/
def scs_go (needle : List Nat) : List Nat → Bool
  | [] => false
  | c :: cs => ci_match_front needle (c :: cs) || scs_go needle cs

/-- `portable_strcasestr` as a found/not-found flag (the callers only
test the result against NULL); an empty needle matches immediately. -/
def strcasestr_found (hay needle : List Nat) : Bool :=
  if needle = [] then true else scs_go needle hay

lemma ci_match_front_iff (n : List Nat) : ∀ h : List Nat,
    ci_match_front n h = true ↔ ∃ t, h.map tolower = n.map tolower ++ t := by
  induction n with
  | nil => intro h; simp [ci_match_front]
  | cons a as ih =>
    intro h
    cases h with
    | nil =>
      constructor
      · intro hx; simp [ci_match_front] at hx
      · rintro ⟨t, ht⟩
        simp at ht
    | cons b bs =>
      simp only [ci_match_front, Bool.and_eq_true, beq_iff_eq, List.map_cons,
        List.cons_append, ih]
      constructor
      · rintro ⟨hab, t, ht⟩
        exact ⟨t, by rw [hab, ht]⟩
      · rintro ⟨t, ht⟩
        injection ht with hh ht'
        exact ⟨hh, t, ht'⟩

lemma scs_go_iff (n : List Nat) (hn : n ≠ []) : ∀ h : List Nat,
    scs_go n h = true ↔ ∃ l r, h.map tolower = l ++ n.map tolower ++ r := by
  intro h
  induction h with
  | nil =>
    constructor
    · intro hx; simp [scs_go] at hx
    · rintro ⟨l, r, hlr⟩
      exfalso
      have hlen := congrArg List.length hlr
      simp [List.length_append] at hlen
      exact hn (List.eq_nil_of_length_eq_zero (by omega))
  | cons c cs ih =>
    constructor
    · intro hx
      rcases Bool.or_eq_true_iff.1 hx with hci | htl
      · rcases (ci_match_front_iff n (c :: cs)).1 hci with ⟨t, ht⟩
        exact ⟨[], t, by simpa using ht⟩
      · rcases ih.1 htl with ⟨l, r, hlr⟩
        exact ⟨tolower c :: l, r, by simp [hlr]⟩
    · rintro ⟨l, r, hlr⟩
      cases l with
      | nil =>
        have hci : ci_match_front n (c :: cs) = true :=
          (ci_match_front_iff n (c :: cs)).2 ⟨r, by simpa using hlr⟩
        simp [scs_go, hci]
      | cons x l' =>
        simp only [List.map_cons, List.cons_append, List.append_assoc] at hlr
        injection hlr with hh ht
        have htl : scs_go n cs = true := ih.2 ⟨l', r, by simpa using ht⟩
        simp [scs_go, htl]

lemma strcasestr_found_iff (hay needle : List Nat) :
    strcasestr_found hay needle = true ↔
      ∃ l r, hay.map tolower = l ++ needle.map tolower ++ r := by
  by_cases hn : needle = []
  · subst hn
    constructor
    · intro _
      exact ⟨[], hay.map tolower, by simp⟩
    · intro _
      simp [strcasestr_found]
  · rw [strcasestr_found, if_neg hn]
    exact scs_go_iff needle hn hay

/-- The owner-name match loop shared by `print_json` and `print_table`:
true iff some owner of the record matches the search string. -/
def name_matches (nm : List Nat) (e : SockEntry) : Bool :=
  e.owners.any (fun o => strcasestr_found o.name nm)

/-- Per-record selection in `print_json`: skip when the port filter is
positive and the port differs (int-to-unsigned cast wraps mod `2^32`),
then skip when a non-empty name filter matches no owner. -/
def print_json_keep (gsp : Int) (gname : Option (List Nat)) (e : SockEntry) : Bool :=
  if 0 < gsp ∧ e.port ≠ (gsp % 2 ^ 32).toNat then false
  else
    match gname with
    | some nm => if nm ≠ [] then name_matches nm e else true
    | none => true

/-- Per-record selection in `print_table` (line 318): same tests. -/
def print_table_keep (gsp : Int) (gname : Option (List Nat)) (e : SockEntry) : Bool :=
  if 0 < gsp ∧ e.port ≠ (gsp % 2 ^ 32).toNat then false
  else
    match gname with
    | some nm => if nm ≠ [] then name_matches nm e else true
    | none => true

/-- claim C6: with no port filter and a non-empty name filter, a record
is retained exactly when some owner's name contains the filter as a
case-insensitive substring; a record with no owners never matches; and
owner name `"SSHD"` matches filter `"sshd"`. -/
theorem claim6_name_filter_case_insensitive (nm : List Nat) (e : SockEntry)
    (hnm : nm ≠ []) :
    (print_json_keep 0 (some nm) e = true ↔
      ∃ o ∈ e.owners, ∃ l r, o.name.map tolower = l ++ nm.map tolower ++ r)
    ∧ (e.owners = [] → print_json_keep 0 (some nm) e = false)
    ∧ strcasestr_found (bytes "SSHD") (bytes "sshd") = true := by
  refine ⟨?_, ?_, by decide⟩
  · simp [print_json_keep, hnm, name_matches, List.any_eq_true, strcasestr_found_iff]
  · intro h0
    simp [print_json_keep, hnm, name_matches, h0]

/-- A record owned by a process named `"SSHD"`. -/
def entry_sshd : SockEntry :=
  { proto := bytes "tcp", local_hex := bytes "0100007F"
  , local_ip := bytes "127.0.0.1", port := 22, inode := 7
  , owners := [⟨321, bytes "SSHD"⟩] }

/-- Witness for C6: the filter `"sshd"` retains `entry_sshd`, whose
only owner is named `"SSHD"`. -/
theorem claim6_name_filter_case_insensitive_witness :
    print_json_keep 0 (some (bytes "sshd")) entry_sshd = true := by
  have h := claim6_name_filter_case_insensitive (bytes "sshd") entry_sshd (by decide)
  exact h.1.2 ⟨⟨321, bytes "SSHD"⟩, by decide, [], [], by decide⟩

/-- `printf("\\u%04x", c)`: four hex digits, zero-padded. -/
def hex4 (n : Nat) : List Nat := List.replicate (4 - (natHex n).length) 48 ++ natHex n

/-- `json_escape` on one byte: the switch in ports.c. -/
def json_escape_byte (c : Nat) : List Nat :=
  if c = 92 then [92, 92]
  else if c = 34 then [92, 34]
  else if c = 8 then [92, 98]
  else if c = 12 then [92, 102]
  else if c = 10 then [92, 110]
  else if c = 13 then [92, 114]
  else if c = 9 then [92, 116]
  else if c < 32 then 92 :: 117 :: hex4 c
  else [c]

/-- `json_escape` over a whole (NUL-free) name. -/
def json_escape (s : List Nat) : List Nat := s.flatMap json_escape_byte

/-- `printf("%d", i)` for a pid. -/
def intRepr (i : Int) : List Nat :=
  if i < 0 then 45 :: natRepr i.natAbs else natRepr i.toNat

/-- Owner column of one `print_table` row: `"(no owner found)"` when
empty, else `pid/name` cells joined by `", "`, names printed verbatim. -/
def render_table_owners (owners : List OwnerInfo) : List Nat :=
  match owners with
  | [] => bytes "(no owner found)"
  | _ => List.intercalate (bytes ", ")
      (owners.map (fun o => intRepr o.pid ++ [47] ++ o.name))

/-- claim C9: the JSON serializer escapes every C0 byte — the named
escapes for backspace, tab, newline, form-feed, carriage-return, plus
backslash and quote, numeric `\u00xx` for the other C0 bytes — leaves
all other bytes unchanged, and the table serializer prints names
literally (shown on a name holding a quote and a tab). -/
theorem claim9_json_escaping (c : Nat) (hc : c < 32)
    (hnamed : c ∉ ([8, 9, 10, 12, 13] : List Nat)) :
    json_escape_byte c = [92, 117, 48, 48, hex_char (c / 16), hex_char (c % 16)]
    ∧ json_escape_byte 92 = [92, 92] ∧ json_escape_byte 34 = [92, 34]
    ∧ json_escape_byte 8 = [92, 98] ∧ json_escape_byte 12 = [92, 102]
    ∧ json_escape_byte 10 = [92, 110] ∧ json_escape_byte 13 = [92, 114]
    ∧ json_escape_byte 9 = [92, 116]
    ∧ (∀ d : Nat, 32 ≤ d → d ≠ 34 → d ≠ 92 → json_escape_byte d = [d])
    ∧ json_escape [97, 34, 9] = [97, 92, 34, 92, 116]
    ∧ render_table_owners [⟨1, [97, 34, 9]⟩] = [49, 47, 97, 34, 9] := by
  refine ⟨?_, by decide, by decide, by decide, by decide, by decide, by decide,
    by decide, ?_, by decide, by decide⟩
  · interval_cases c <;> first
      | exact absurd (by decide) hnamed
      | decide
  · intro d hd h34 h92
    have h32 : ¬d < 32 := by omega
    have h8 : d ≠ 8 := by omega
    have h12 : d ≠ 12 := by omega
    have h10 : d ≠ 10 := by omega
    have h13 : d ≠ 13 := by omega
    have h9 : d ≠ 9 := by omega
    simp [json_escape_byte, h34, h92, h32, h8, h12, h10, h13, h9]

/-- Witness for C9 at the control byte 0x01 and the plain byte `'A'`. -/
theorem claim9_json_escaping_witness :
    json_escape_byte 1 = [92, 117, 48, 48, hex_char (1 / 16), hex_char (1 % 16)]
    ∧ json_escape_byte 65 = [65]
    ∧ json_escape [97, 34, 9] = [97, 92, 34, 92, 116]
    ∧ render_table_owners [⟨1, [97, 34, 9]⟩] = [49, 47, 97, 34, 9] := by
  obtain ⟨h1, _, _, _, _, _, _, _, hplain, hjson, htable⟩ :=
    claim9_json_escaping 1 (by decide) (by decide)
  exact ⟨h1, hplain 65 (by decide) (by decide) (by decide), hjson, htable⟩

/-- claim C10: when the configured port filter is zero or negative, the
port predicate rejects nothing — every record passes in both the table
and the structured output, instead of matching only port 0. -/
theorem claim10_nonpositive_port_filter_disabled (gsp : Int)
    (gname : Option (List Nat)) (e : SockEntry) (h : gsp ≤ 0) :
    print_json_keep gsp none e = true
    ∧ print_table_keep gsp none e = true
    ∧ print_json_keep gsp gname e = print_json_keep 0 gname e
    ∧ print_table_keep gsp gname e = print_table_keep 0 gname e := by
  have hng : ¬0 < gsp := not_lt.2 h
  cases gname <;> simp [print_json_keep, print_table_keep, hng]

/-- Witness for C10 with filter value 0 (e.g. `-p 0`) on a port-22
record. -/
theorem claim10_nonpositive_port_filter_disabled_witness :
    print_json_keep 0 none entry_listen = true
    ∧ print_table_keep 0 none entry_listen = true
    ∧ print_json_keep 0 none entry_listen = print_json_keep 0 none entry_listen
    ∧ print_table_keep 0 none entry_listen = print_table_keep 0 none entry_listen :=
  claim10_nonpositive_port_filter_disabled 0 none entry_listen (by decide)

end Ports
